import Mathlib

/-!
Verification of the yja-signal room/game state synchronization engine
(src/signal/hooks/useFirebaseRoom.ts, first variant of the hook unless noted).

The shared real-time store is modelled in the abstraction of spec §6:
a hierarchical key-value store with path-addressable read/write/remove and
an atomic read-modify-write increment.  Maps (Firebase object nodes) are
association lists keyed by `String` with unique keys; `null` is modelled as
a stored value (`Option _` with `none`), matching the spec data model where
`memberAnswers[team][userId] ∈ {O, X, null}`.
-/

namespace Yja

/-- The two possible answers, `'O' | 'X'` in the source. -/
inductive Ans
  | O
  | X
deriving DecidableEq, Repr

/-- The role enum `UserRole` from src/signal/types.ts. -/
inductive UserRole
  | ADMIN
  | TRAINEE
deriving DecidableEq, Repr

/-- The participant record `User` from src/signal/types.ts. -/
structure User where
  id : String
  name : String
  team : String
  role : UserRole
  score : Int
deriving DecidableEq, Repr

/-- Point read of a map node at a key: `snapshot.val()`, `none` when absent. -/
def getKey {α : Type} : List (String × α) → String → Option α
  | [], _ => none
  | p :: t, k => if p.1 = k then some p.2 else getKey t k

/-- Write at a key: replaces the entry when the key exists, otherwise
appends it (Firebase `set`/`update` at a child path). -/
def setKey {α : Type} : List (String × α) → String → α → List (String × α)
  | [], k, v => [(k, v)]
  | p :: t, k, v => if p.1 = k then (k, v) :: t else p :: setKey t k v

/-- Remove a key (Firebase `remove` at a child path). -/
def delKey {α : Type} : List (String × α) → String → List (String × α)
  | [], _ => []
  | p :: t, k => if p.1 = k then delKey t k else p :: delKey t k

theorem getKey_setKey {α : Type} (m : List (String × α)) (k : String) (v : α)
    (k2 : String) :
    getKey (setKey m k v) k2 = if k2 = k then some v else getKey m k2 := by
  induction m with
  | nil =>
    by_cases h : k2 = k
    · subst h; simp [getKey, setKey]
    · simp [getKey, setKey, h, Ne.symm h]
  | cons p t ih =>
    by_cases hp : p.1 = k
    · by_cases h : k2 = k
      · subst h; simp [getKey, setKey, hp]
      · simp [getKey, setKey, hp, h, Ne.symm h]
    · by_cases h : k2 = k
      · subst h; simp [getKey, setKey, hp, ih]
      · simp [getKey, setKey, hp, h, ih]

theorem getKey_setKey_self {α : Type} (m : List (String × α)) (k : String)
    (v : α) : getKey (setKey m k v) k = some v := by
  rw [getKey_setKey, if_pos rfl]

theorem getKey_setKey_ne {α : Type} (m : List (String × α)) (k : String)
    (v : α) (k2 : String) (h : k2 ≠ k) :
    getKey (setKey m k v) k2 = getKey m k2 := by
  rw [getKey_setKey, if_neg h]

theorem getKey_delKey {α : Type} (m : List (String × α)) (k k2 : String) :
    getKey (delKey m k) k2 = if k2 = k then none else getKey m k2 := by
  induction m with
  | nil => simp [getKey, delKey]
  | cons p t ih =>
    by_cases hp : p.1 = k
    · by_cases h : k2 = k
      · subst h; simp [getKey, delKey, hp, ih]
      · simp [getKey, delKey, hp, h, Ne.symm h, ih]
    · by_cases h : k2 = k
      · subst h; simp [getKey, delKey, hp, ih]
      · simp [getKey, delKey, hp, h, ih]

/-- Membership of a key: a successful lookup comes from some entry. -/
theorem exists_of_getKey_isSome {α : Type} (m : List (String × α))
    (k : String) (h : (getKey m k).isSome) : ∃ p ∈ m, p.1 = k := by
  induction m with
  | nil => simp [getKey] at h
  | cons p t ih =>
    by_cases hp : p.1 = k
    · exact ⟨p, List.mem_cons_self _ _, hp⟩
    · rw [getKey, if_neg hp] at h
      obtain ⟨q, hq, hk⟩ := ih h
      exact ⟨q, List.mem_cons_of_mem _ hq, hk⟩

/-! ## Hero rotation selector (useFirebaseRoom.ts lines 689-750 and 753-817) -/

/-- Service count `heroHistory.filter(id => id === m.id).length`: how often a member has
served as hero. -/
def heroCount (heroHistory : List String) (uid : String) : Nat :=
  (heroHistory.filter (fun h => h = uid)).length

/-- JS `Math.min(...)` over a non-empty list of counts (the source only applies
it to non-empty argument lists). -/
def jsMin : List Nat → Nat
  | [] => 0
  | x :: xs => xs.foldl Nat.min x

theorem foldl_min_le_init (xs : List Nat) (a : Nat) :
    xs.foldl Nat.min a ≤ a := by
  induction xs generalizing a with
  | nil => exact Nat.le_refl a
  | cons x xs ih =>
    exact Nat.le_trans (ih (Nat.min a x)) (Nat.min_le_left a x)

theorem foldl_min_le_mem (xs : List Nat) (y : Nat) :
    y ∈ xs → ∀ a : Nat, xs.foldl Nat.min a ≤ y := by
  induction xs with
  | nil => intro hy; cases hy
  | cons x xs ih =>
    intro hy a
    rcases List.mem_cons.1 hy with rfl | hy2
    · exact Nat.le_trans (foldl_min_le_init xs (Nat.min a y))
        (Nat.min_le_right a y)
    · exact ih hy2 (Nat.min a x)

theorem foldl_min_eq_or_mem (xs : List Nat) :
    ∀ a : Nat, xs.foldl Nat.min a = a ∨ xs.foldl Nat.min a ∈ xs := by
  induction xs with
  | nil => exact fun a => Or.inl rfl
  | cons x xs ih =>
    intro a
    rcases ih (Nat.min a x) with h | h
    · rcases min_choice a x with hm | hm
      · exact Or.inl (h.trans hm)
      · exact Or.inr (List.mem_cons.2 (Or.inl (h.trans hm)))
    · exact Or.inr (List.mem_cons.2 (Or.inr h))

theorem jsMin_le (x : Nat) (xs : List Nat) (y : Nat) (hy : y ∈ x :: xs) :
    jsMin (x :: xs) ≤ y := by
  rcases List.mem_cons.1 hy with rfl | hy2
  · exact foldl_min_le_init xs y
  · exact foldl_min_le_mem xs y hy2 x

theorem jsMin_mem (x : Nat) (xs : List Nat) : jsMin (x :: xs) ∈ x :: xs := by
  rcases foldl_min_eq_or_mem xs x with h | h

  · exact List.mem_cons.2 (Or.inl h)
  · exact List.mem_cons.2 (Or.inr h)

/-- The roster of one team, `participants.filter(p => p.team === team)`. -/
def teamPool (participants : List User) (team : String) : List User :=
  participants.filter (fun p => p.team = team)

/-- The tie-break candidate set of the fairness selector: members with
`count < 3` when any exist (else the whole pool), restricted to those at the
minimum count.  Mirrors useFirebaseRoom.ts lines 702-724 (`nextRound`) and
766-793 (`skipToNextHero`), which share this computation. -/
def heroCandidates (pool : List User) (heroHistory : List String) :
    List User :=
  let eligibleMembers := pool.filter (fun m => heroCount heroHistory m.id < 3)
  if eligibleMembers.length > 0 then
    let minCount := jsMin (eligibleMembers.map
      (fun m => heroCount heroHistory m.id))
    eligibleMembers.filter (fun m => heroCount heroHistory m.id = minCount)
  else
    let minCount := jsMin (pool.map (fun m => heroCount heroHistory m.id))
    pool.filter (fun m => heroCount heroHistory m.id = minCount)

/-- Hero selection of `nextRound` (lines 692-724): the outgoing hero is not
excluded.  `r` is the uniformly drawn `randomIdx < candidates.length`. -/
def nextRoundHeroPick (participants : List User) (team : String)
    (heroHistory : List String) (r : Nat) : Option User :=
  if (teamPool participants team).length = 0 then none
  else (heroCandidates (teamPool participants team) heroHistory)[r]?

/-- The pool `teamMembers.filter(m => m.id !== currentHeroId)` in `skipToNextHero`. -/
def skipPool (participants : List User) (team : String)
    (currentHeroId : Option String) : List User :=
  (teamPool participants team).filter (fun m => ¬ currentHeroId = some m.id)

/-- Hero selection of `skipToNextHero` (lines 756-793): the current hero is
excluded from the pool first; a team of one keeps its hero (`none`). -/
def skipToNextHeroPick (participants : List User) (team : String)
    (currentHeroId : Option String) (heroHistory : List String) (r : Nat) :
    Option User :=
  if (teamPool participants team).length = 0 then none
  else if (skipPool participants team currentHeroId).length = 0 then none
  else (heroCandidates (skipPool participants team currentHeroId)
    heroHistory)[r]?

/-- Fairness of a pick from a candidate pool, relative to a hero history:
the pick is in the pool; while any pool member is under the 3-service cap
the pick is under the cap and least-served among under-cap members; when
everyone in the pool has served at least 3 times the pick is least-served
over the whole pool. -/
def FairPick (pool : List User) (hist : List String) (u : User) : Prop :=
  u ∈ pool ∧
  ((∃ m ∈ pool, heroCount hist m.id < 3) →
    heroCount hist u.id < 3 ∧
    ∀ m ∈ pool, heroCount hist m.id < 3 →
      heroCount hist u.id ≤ heroCount hist m.id) ∧
  ((∀ m ∈ pool, 3 ≤ heroCount hist m.id) →
    ∀ m ∈ pool, heroCount hist u.id ≤ heroCount hist m.id)

/-- Fairness of a pick from the candidate set: the chosen member is in the
pool; while any pool member is under the 3-service cap the chosen one is
under the cap and least-served among capped-eligible members; when everyone
has served at least 3 times, the chosen one is least-served in the pool. -/
theorem heroCandidates_fair (pool : List User) (hist : List String) (r : Nat)
    (u : User) (hsel : (heroCandidates pool hist)[r]? = some u) :
    FairPick pool hist u := by
  rw [FairPick]
  have hu : u ∈ heroCandidates pool hist := List.getElem?_mem hsel
  rw [heroCandidates] at hu
  by_cases hne : ∃ m ∈ pool, heroCount hist m.id < 3
  · obtain ⟨m0, hm0, hm0lt⟩ := hne
    have hm0e : m0 ∈ pool.filter (fun m => heroCount hist m.id < 3) :=
      List.mem_filter.2 ⟨hm0, by simpa using hm0lt⟩
    have hlen : (pool.filter (fun m => heroCount hist m.id < 3)).length > 0 :=
      List.length_pos.2 (fun he => by rw [he] at hm0e; cases hm0e)
    rw [if_pos hlen] at hu
    have hu2 := List.mem_filter.1 hu
    have hu3 := List.mem_filter.1 hu2.1
    have humin : heroCount hist u.id =
        jsMin ((pool.filter (fun m => heroCount hist m.id < 3)).map
          (fun m => heroCount hist m.id)) := by
      simpa using hu2.2
    refine ⟨hu3.1, fun _ => ⟨by simpa using hu3.2, ?_⟩, fun hall => ?_⟩
    · intro m hm hmlt
      have hmem : heroCount hist m.id ∈
          (pool.filter (fun m => heroCount hist m.id < 3)).map
            (fun m => heroCount hist m.id) :=
        List.mem_map_of_mem _ (List.mem_filter.2 ⟨hm, by simpa using hmlt⟩)
      rw [humin]
      cases hml : (pool.filter (fun m => heroCount hist m.id < 3)).map
          (fun m => heroCount hist m.id) with
      | nil => rw [hml] at hmem; cases hmem
      | cons x xs => rw [hml] at hmem; exact jsMin_le x xs _ hmem
    · exact absurd (hall u hu3.1) (Nat.not_le.2 (by simpa using hu3.2))
  · have hlen : ¬ (pool.filter (fun m => heroCount hist m.id < 3)).length > 0 := by
      intro hpos
      obtain ⟨m, hm⟩ := List.exists_mem_of_length_pos hpos
      have := List.mem_filter.1 hm
      exact hne ⟨m, this.1, by simpa using this.2⟩
    rw [if_neg hlen] at hu
    have hu2 := List.mem_filter.1 hu
    have humin : heroCount hist u.id =
        jsMin (pool.map (fun m => heroCount hist m.id)) := by
      simpa using hu2.2
    refine ⟨hu2.1, fun hex => absurd hex hne, fun _ => ?_⟩
    intro m hm
    have hmem : heroCount hist m.id ∈ pool.map (fun m => heroCount hist m.id) :=
      List.mem_map_of_mem _ hm
    rw [humin]
    cases hml : pool.map (fun m => heroCount hist m.id) with
    | nil => rw [hml] at hmem; cases hmem
    | cons x xs => rw [hml] at hmem; exact jsMin_le x xs _ hmem

/-- C1: the hero selection performed by `nextRound` and `skipToNextHero`
never chooses a member with service count ≥ 3 while an under-served
(count < 3) candidate exists; among the eligible candidates it chooses one
at the minimum count, and only when every candidate has served ≥ 3 times
does it choose a minimum-count member of the full candidate pool
(`nextRound`: full team; `skipToNextHero`: team minus the current hero). -/
theorem nextRound_and_skip_hero_fairness :
    (∀ (parts : List User) (team : String) (hist : List String) (r : Nat)
        (u : User), nextRoundHeroPick parts team hist r = some u →
      FairPick (teamPool parts team) hist u) ∧
    (∀ (parts : List User) (team : String) (cur : Option String)
        (hist : List String) (r : Nat) (u : User),
      skipToNextHeroPick parts team cur hist r = some u →
      FairPick (skipPool parts team cur) hist u) := by
  constructor
  · intro parts team hist r u hsel
    rw [nextRoundHeroPick] at hsel
    by_cases h0 : (teamPool parts team).length = 0
    · rw [if_pos h0] at hsel; cases hsel
    · rw [if_neg h0] at hsel
      exact heroCandidates_fair _ hist r u hsel
  · intro parts team cur hist r u hsel
    rw [skipToNextHeroPick] at hsel
    by_cases h0 : (teamPool parts team).length = 0
    · rw [if_pos h0] at hsel; cases hsel
    · rw [if_neg h0] at hsel
      by_cases h1 : (skipPool parts team cur).length = 0
      · rw [if_pos h1] at hsel; cases hsel
      · rw [if_neg h1] at hsel
        exact heroCandidates_fair _ hist r u hsel

/-- Concrete roster used to witness C1: three members of team "A", where
"u1" has served twice, "u2" once and "u3" once. -/
def c1Parts : List User :=
  [⟨"u1", "Kim", "A", UserRole.TRAINEE, 0⟩,
   ⟨"u2", "Lee", "A", UserRole.TRAINEE, 0⟩,
   ⟨"u3", "Park", "A", UserRole.TRAINEE, 0⟩]

def c1Hist : List String := ["u1", "u2", "u1", "u3"]

/-- Witness for C1 at a concrete roster and history: with draw index 0 the
selection returns "u2" (a least-served, under-cap member). -/
theorem nextRound_and_skip_hero_fairness_witness :
    FairPick (teamPool c1Parts "A") c1Hist
      ⟨"u2", "Lee", "A", UserRole.TRAINEE, 0⟩ :=
  nextRound_and_skip_hero_fairness.1 c1Parts "A" c1Hist 0
    ⟨"u2", "Lee", "A", UserRole.TRAINEE, 0⟩ (by decide)

/-! ## Question pool sampler (`generateQuestionHistory`, lines 292-303) -/

/-- The rejection-sampling loop
`while (indices.length < 4 && indices.length < totalQuestions)`; `draws` is
the stream of successive `Math.floor(Math.random() * totalQuestions)`
values (the loop keeps drawing; a terminating run consumes finitely many
draws, so the model stops when the finite stream is exhausted). -/
def genLoop (n : Nat) : List Nat → List Nat → List Nat
  | [], indices => indices
  | d :: ds, indices =>
    if indices.length < 4 ∧ indices.length < n then
      if d ∈ indices then genLoop n ds indices
      else genLoop n ds (indices ++ [d])
    else indices

/-- The sampler `generateQuestionHistory(totalQuestions)` (lines 292-303), with the
random draw stream made explicit. -/
def generateQuestionHistory (totalQuestions : Nat) (draws : List Nat) :
    List Nat :=
  genLoop totalQuestions draws []

theorem exists_not_mem_of_length_lt (l : List Nat) (n : Nat) (hnd : l.Nodup)
    (hl : l.length < n) : ∃ k, k < n ∧ k ∉ l := by
  by_contra h
  push_neg at h
  have hsub : Finset.range n ⊆ l.toFinset := by
    intro k hk
    exact List.mem_toFinset.2 (h k (Finset.mem_range.1 hk))
  have hcard := Finset.card_le_card hsub
  rw [Finset.card_range, List.toFinset_card_of_nodup hnd] at hcard
  omega

theorem genLoop_spec (n : Nat) (draws : List Nat) :
    ∀ indices : List Nat,
    (∀ d ∈ draws, d < n) → (∀ x ∈ indices, x < n) → indices.Nodup →
    indices.length ≤ min 4 n →
    (∀ k, k < n → k ∉ indices → k ∈ draws) →
    (genLoop n draws indices).length = min 4 n ∧
    (genLoop n draws indices).Nodup ∧
    (∀ x ∈ genLoop n draws indices, x < n) := by
  induction draws with
  | nil =>
    intro indices _ hi hnd hlen hcov
    simp only [genLoop]
    refine ⟨?_, hnd, hi⟩
    by_contra hne
    have hlt : indices.length < min 4 n := Nat.lt_of_le_of_ne hlen hne
    have hltn : indices.length < n :=
      lt_of_lt_of_le hlt (Nat.min_le_right 4 n)
    obtain ⟨k, hk, hkn⟩ := exists_not_mem_of_length_lt indices n hnd hltn
    exact absurd (hcov k hk hkn) (List.not_mem_nil k)
  | cons d ds ih =>
    intro indices hd hi hnd hlen hcov
    simp only [genLoop]
    by_cases hc : indices.length < 4 ∧ indices.length < n
    · rw [if_pos hc]
      by_cases hmem : d ∈ indices
      · rw [if_pos hmem]
        refine ih indices (fun x hx => hd x (List.mem_cons_of_mem d hx))
          hi hnd hlen ?_
        intro k hk hkn
        rcases List.mem_cons.1 (hcov k hk hkn) with rfl | h
        · exact absurd hmem hkn
        · exact h
      · rw [if_neg hmem]
        refine ih (indices ++ [d])
          (fun x hx => hd x (List.mem_cons_of_mem d hx)) ?_ ?_ ?_ ?_
        · intro x hx
          rcases List.mem_append.1 hx with h | h
          · exact hi x h
          · rw [List.mem_singleton.1 h]
            exact hd d (List.mem_cons_self d ds)
        · simp [List.nodup_append, hnd, hmem]
        · rw [List.length_append, List.length_singleton]
          exact Nat.le_min.2 ⟨hc.1, hc.2⟩
        · intro k hk hkn
          have hkni : k ∉ indices := fun h => hkn (List.mem_append.2 (.inl h))
          rcases List.mem_cons.1 (hcov k hk hkni) with rfl | h
          · exact absurd
              (List.mem_append.2 (.inr (List.mem_singleton.2 rfl))) hkn
          · exact h
    · rw [if_neg hc]
      refine ⟨?_, hnd, hi⟩
      have h4 : min 4 n ≤ 4 := Nat.min_le_left 4 n
      have hn : min 4 n ≤ n := Nat.min_le_right 4 n
      omega

theorem genLoop_sublist (n : Nat) (draws : List Nat) :
    ∀ indices : List Nat, ∃ t : List Nat,
      genLoop n draws indices = indices ++ t ∧ t.Sublist draws := by
  induction draws with
  | nil => exact fun indices => ⟨[], by simp [genLoop]⟩
  | cons d ds ih =>
    intro indices
    simp only [genLoop]
    by_cases hc : indices.length < 4 ∧ indices.length < n
    · rw [if_pos hc]
      by_cases hmem : d ∈ indices
      · rw [if_pos hmem]
        obtain ⟨t, ht, hs⟩ := ih indices
        exact ⟨t, ht, hs.cons d⟩
      · rw [if_neg hmem]
        obtain ⟨t, ht, hs⟩ := ih (indices ++ [d])
        refine ⟨d :: t, ?_, hs.cons₂ d⟩
        rw [ht, List.append_assoc]
        rfl
    · rw [if_neg hc]
      exact ⟨[], by simp, List.nil_sublist _⟩

/-- C4: under a draw stream that takes only valid values (every draw is in
`[0, poolSize)`, as `Math.floor(Math.random()*poolSize)` guarantees) and is
inexhaustible (every valid index eventually appears, the probability-one
behaviour of the rejection loop), the sampler returns exactly
`min 4 poolSize` pairwise-distinct indices, each in `[0, poolSize)`, in
draw order (a sublist of the draw stream). -/
theorem generateQuestionHistory_spec (n : Nat) (draws : List Nat)
    (h1 : ∀ d ∈ draws, d < n) (h2 : ∀ k, k < n → k ∈ draws) :
    (generateQuestionHistory n draws).length = min 4 n ∧
    (generateQuestionHistory n draws).Nodup ∧
    (∀ x ∈ generateQuestionHistory n draws, x < n) ∧
    (generateQuestionHistory n draws).Sublist draws := by
  obtain ⟨hlen, hnd, hran⟩ := genLoop_spec n draws [] h1 (by simp)
    List.nodup_nil (by simp) (fun k hk _ => h2 k hk)
  obtain ⟨t, ht, hs⟩ := genLoop_sublist n draws []
  refine ⟨hlen, hnd, hran, ?_⟩
  rw [generateQuestionHistory, ht]
  simpa using hs

/-- Witness for C4 at the pool sizes named in the claim: 10 draws in
`[0,10)` yield 4 distinct indices, a pool of 2 yields 2, a pool of 0 yields
the empty list. -/
theorem generateQuestionHistory_spec_witness :
    (generateQuestionHistory 10 [7, 7, 0, 1, 2, 3, 4, 5, 6, 8, 9]).length
        = min 4 10 ∧
    (generateQuestionHistory 2 [1, 1, 0]).length = min 4 2 ∧
    (generateQuestionHistory 0 []).length = min 4 0 ∧
    (generateQuestionHistory 10 [7, 7, 0, 1, 2, 3, 4, 5, 6, 8, 9]).Nodup := by
  have ha := generateQuestionHistory_spec 10 [7, 7, 0, 1, 2, 3, 4, 5, 6, 8, 9]
    (by decide) (by decide)
  have hb := generateQuestionHistory_spec 2 [1, 1, 0] (by decide) (by decide)
  have hc := generateQuestionHistory_spec 0 []
    (by decide) (fun k hk => absurd hk (Nat.not_lt_zero k))
  exact ⟨ha.1, hb.1, hc.1, ha.2.1⟩

/-! ## Room state (src/signal/types.ts, `GameState`; room node layout of
useFirebaseRoom.ts) -/

/-- A JavaScript number as stored in `currentQuestionIndex`: a genuine
integer, or `NaN` (in JS, `x % 0` is `NaN`). -/
inductive JsNum
  | nan
  | int (i : Int)
deriving DecidableEq, Repr

/-- JS `v || 0`: absent (`undefined`), `NaN` and `0` are falsy and give
`0`; any other number gives itself. -/
def jsOrZero : Option JsNum → Int
  | none => 0
  | some JsNum.nan => 0
  | some (JsNum.int i) => i

/-- The shared `GameState` from src/signal/types.ts plus the `resultRevealed` /
`resultRevealedAt` maps the hook maintains.  Each `Record<string, _>` is an
association list keyed by team name (inner maps by user id). -/
structure GameState where
  isStarted : Bool
  isFinished : Bool
  startTime : Option Int
  currentHeroId : List (String × String)
  heroAnswer : List (String × Option Ans)
  currentQuestionIndex : List (String × JsNum)
  questionHistory : List (String × List Nat)
  heroHistory : List (String × List String)
  individualScores : List (String × Int)
  memberAnswers : List (String × List (String × Option Ans))
  roundCount : List (String × Int)
  resultRevealed : List (String × Bool)
  resultRevealedAt : List (String × Option Int)
deriving DecidableEq, Repr

/-- A room record: the `participants` node (keyed by `user.id`, values
listed in key order) and the `gameState` node. -/
structure Room where
  participants : List User
  gameState : GameState
deriving DecidableEq, Repr

/-- Firebase `set(participants/{u.id}, u)`: replace or append by id. -/
def setParticipant : List User → User → List User
  | [], u => [u]
  | p :: t, u => if p.id = u.id then u :: t else p :: setParticipant t u

/-! ## `changeQuestion` (useFirebaseRoom.ts lines 628-645) -/

/-- The `direction` argument: `'next' | 'prev' | number`. -/
inductive QDir
  | next
  | prev
  | idx (i : Int)
deriving DecidableEq, Repr

/-- Question navigation `changeQuestion(team, direction)`: reads
`questionHistory[team] || []` and `currentQuestionIndex[team] || 0`,
computes the new index and writes it unconditionally.  JS `%` is the
truncated remainder (`Int.tmod`) and `x % 0 = NaN`.  There is no check of
`heroAnswer` and no range check on a numeric `direction`. -/
def changeQuestion (room : Room) (team : String) (dir : QDir) : Room :=
  let gs := room.gameState
  let currentHistory := (getKey gs.questionHistory team).getD []
  let currentIdx : Int := jsOrZero (getKey gs.currentQuestionIndex team)
  let newIdx : JsNum :=
    match dir with
    | QDir.idx i => JsNum.int i
    | QDir.next =>
      if currentHistory.length = 0 then JsNum.nan
      else JsNum.int ((currentIdx + 1).tmod currentHistory.length)
    | QDir.prev =>
      if currentHistory.length = 0 then JsNum.nan
      else JsNum.int
        ((currentIdx - 1 + currentHistory.length).tmod currentHistory.length)
  { room with gameState :=
      { gs with currentQuestionIndex :=
          setKey gs.currentQuestionIndex team newIdx } }

/-- C10: `changeQuestion` performs no range validation: with an empty
`questionHistory[team]`, 'next'/'prev' compute the index modulo zero
(`NaN`) and still write it; an explicit numeric argument `i` is stored
exactly, even when negative or not below the history length. -/
theorem changeQuestion_no_validation (room : Room) (team : String) :
    ((getKey room.gameState.questionHistory team).getD [] = [] →
      getKey (changeQuestion room team QDir.next).gameState.currentQuestionIndex
          team = some JsNum.nan ∧
      getKey (changeQuestion room team QDir.prev).gameState.currentQuestionIndex
          team = some JsNum.nan) ∧
    (∀ i : Int,
      getKey (changeQuestion room team
          (QDir.idx i)).gameState.currentQuestionIndex team
        = some (JsNum.int i)) := by
  constructor
  · intro he
    constructor <;> simp [changeQuestion, he, getKey_setKey_self]
  · intro i
    simp [changeQuestion, getKey_setKey_self]

/-- Concrete room for the C7 counterexample and witness: hero answer
committed (`'O'`), a staged two-question set, index 0. -/
def c7Room : Room :=
  { participants := [],
    gameState :=
      { isStarted := true, isFinished := false, startTime := some 0,
        currentHeroId := [("A", "u1")],
        heroAnswer := [("A", some Ans.O)],
        currentQuestionIndex := [("A", JsNum.int 0)],
        questionHistory := [("A", [3, 7])],
        heroHistory := [], individualScores := [],
        memberAnswers := [], roundCount := [],
        resultRevealed := [], resultRevealedAt := [] } }

/-- C7 counterexample: with `heroAnswer["A"]` non-null, invoking
`changeQuestion("A", 'next')` still changes `currentQuestionIndex["A"]`
from 0 to 1 — the operation has no `heroAnswer` guard. -/
theorem changeQuestion_heroAnswer_counterexample :
    getKey c7Room.gameState.heroAnswer "A" = some (some Ans.O) ∧
    getKey c7Room.gameState.currentQuestionIndex "A" = some (JsNum.int 0) ∧
    getKey (changeQuestion c7Room "A"
        QDir.next).gameState.currentQuestionIndex "A"
      = some (JsNum.int 1) := by decide

/-- C7 (amended): `changeQuestion` itself checks nothing about
`heroAnswer` — in every state, whatever `heroAnswer[team]` holds, 'next'
and 'prev' move the index cyclically modulo `questionHistory[team].length`;
the "permitted only while `heroAnswer[team] == null`" rule is enforced by
the UI (TraineeView renders the navigation buttons only while the hero
answer is null), not by this operation. -/
theorem changeQuestion_cyclic (room : Room) (team : String)
    (hne : ((getKey room.gameState.questionHistory team).getD []).length
      ≠ 0) :
    (getKey (changeQuestion room team
        QDir.next).gameState.currentQuestionIndex team
      = some (JsNum.int
          ((jsOrZero (getKey room.gameState.currentQuestionIndex team)
              + 1).tmod
            ((getKey room.gameState.questionHistory team).getD
              []).length))) ∧
    (getKey (changeQuestion room team
        QDir.prev).gameState.currentQuestionIndex team
      = some (JsNum.int
          ((jsOrZero (getKey room.gameState.currentQuestionIndex team) - 1
              + ((getKey room.gameState.questionHistory team).getD
                []).length).tmod
            ((getKey room.gameState.questionHistory team).getD
              []).length))) ∧
    (∀ (ha : List (String × Option Ans)) (dir : QDir),
      changeQuestion
          { room with gameState :=
              { room.gameState with heroAnswer := ha } } team dir
        = { changeQuestion room team dir with gameState :=
              { (changeQuestion room team dir).gameState with
                  heroAnswer := ha } }) := by
  refine ⟨?_, ?_, ?_⟩
  · simp [changeQuestion, hne, getKey_setKey_self]
  · simp [changeQuestion, hne, getKey_setKey_self]
  · intro ha dir
    cases dir <;> rfl

/-- Witness for the amended C7 at the concrete committed-answer room. -/
theorem changeQuestion_cyclic_witness :
    getKey (changeQuestion c7Room "A"
        QDir.next).gameState.currentQuestionIndex "A"
      = some (JsNum.int
          ((jsOrZero (getKey c7Room.gameState.currentQuestionIndex "A")
              + 1).tmod
            ((getKey c7Room.gameState.questionHistory "A").getD
              []).length)) :=
  (changeQuestion_cyclic c7Room "A" (by decide)).1

/-- Concrete room for the C10 witness: nothing staged for team "A". -/
def c10Room : Room :=
  { participants := [],
    gameState :=
      { isStarted := true, isFinished := false, startTime := some 0,
        currentHeroId := [], heroAnswer := [],
        currentQuestionIndex := [], questionHistory := [],
        heroHistory := [], individualScores := [],
        memberAnswers := [], roundCount := [],
        resultRevealed := [], resultRevealedAt := [] } }

/-- Witness for C10: with an empty staged set, 'next' writes `NaN`; an
explicit out-of-range index `-5` is stored verbatim. -/
theorem changeQuestion_no_validation_witness :
    getKey (changeQuestion c10Room "A"
        QDir.next).gameState.currentQuestionIndex "A" = some JsNum.nan ∧
    getKey (changeQuestion c10Room "A"
        (QDir.idx (-5))).gameState.currentQuestionIndex "A"
      = some (JsNum.int (-5)) :=
  ⟨((changeQuestion_no_validation c10Room "A").1 (by decide)).1,
   (changeQuestion_no_validation c10Room "A").2 (-5)⟩

/-! ## Remaining operations of the hook (first variant) -/

/-- Write at the nested path `gameState/memberAnswers/{team}/{uid}`
(creates the team node when absent, merges into it otherwise). -/
def setTeamAnswer (ma : List (String × List (String × Option Ans)))
    (team uid : String) (v : Option Ans) :
    List (String × List (String × Option Ans)) :=
  setKey ma team (setKey ((getKey ma team).getD []) uid v)

/-- Hero commit `setHeroAnswer(team, answer)` (lines 580-610): one multi-path update
setting `heroAnswer[team]`, clearing the reveal flags, and resetting
`memberAnswers[team][m.id] = null` for every member of a fresh read of the
current roster (the per-member paths merge into the team node; keys of
departed users are not removed). -/
def setHeroAnswer (room : Room) (team : String) (answer : Ans) : Room :=
  let gs := room.gameState
  let teamMembers := teamPool room.participants team
  { room with gameState :=
      { gs with
        heroAnswer := setKey gs.heroAnswer team (some answer),
        resultRevealed := setKey gs.resultRevealed team false,
        resultRevealedAt := setKey gs.resultRevealedAt team none,
        memberAnswers := teamMembers.foldl
          (fun ma m => setTeamAnswer ma team m.id none) gs.memberAnswers } }

/-- Departure `leaveRoom` (lines 449-457): removes only the participant row
(`remove(participants/{currentUser.id})`); `gameState` — in particular
`memberAnswers` and `individualScores` — is untouched. -/
def leaveRoom (room : Room) (uid : String) : Room :=
  { room with
      participants := room.participants.filter (fun p => ¬ p.id = uid) }

/-- Participant join `joinRoom` (lines 387-446): duplicate `(team, name)` detection, removal
of the old row and its pending answer entry, score transfer, participant
and score creation, and mid-game `memberAnswers` seeding.  `newId` is the
freshly generated `user_<ts>_<rand>`. -/
def joinRoom (room : Room) (nm tm newId : String) (role : UserRole) :
    Room :=
  let gs0 := room.gameState
  let duplicateUser :=
    room.participants.find? (fun p => p.team = tm ∧ p.name = nm)
  let ps1 :=
    match duplicateUser with
    | some dup => room.participants.filter (fun p => ¬ p.id = dup.id)
    | none => room.participants
  let gs1 :=
    match duplicateUser with
    | some dup =>
      match getKey gs0.memberAnswers tm with
      | some ta =>
        { gs0 with
          memberAnswers := setKey gs0.memberAnswers tm (delKey ta dup.id) }
      | none => gs0
    | none => gs0
  let score : Int :=
    match duplicateUser with
    | some dup => (getKey gs0.individualScores dup.id).getD 0
    | none => 0
  let newUser : User :=
    { id := newId, name := nm, team := tm, role := role, score := score }
  let ps2 := setParticipant ps1 newUser
  let gs2 :=
    { gs1 with individualScores := setKey gs1.individualScores newId score }
  let gs3 :=
    if gs0.isStarted ∧ ¬ gs0.isFinished then
      { gs2 with
        memberAnswers := setTeamAnswer gs2.memberAnswers tm newId none }
    else gs2
  { participants := ps2, gameState := gs3 }

/-- One primitive store write of `revealResult`, for stating the order in
which the operation touches the store. -/
inductive StoreOp
  | incrScore (uid : String) (delta : Int)
  | setRevealed (team : String) (time : Int)
deriving DecidableEq, Repr

/-- The value `heroAnswer[team]` as the JS truthiness test `if (!heroAnswer)` sees
it: `none` when the key is absent or holds null. -/
def heroAnswerVal (gs : GameState) (team : String) : Option Ans :=
  (getKey gs.heroAnswer team).join

/-- Reveal `revealResult(team)` (lines 648-686, the transaction variant): no-op
when the hero answer is falsy; otherwise one `runTransaction`
(`(currentScore || 0) + 100`) per member whose stored answer equals the
hero answer, then the reveal flags. -/
def revealResult (room : Room) (team : String) (now : Int) : Room :=
  let gs := room.gameState
  match heroAnswerVal gs team with
  | none => room
  | some ha =>
    let memberAnswers := (getKey gs.memberAnswers team).getD []
    let newScores := memberAnswers.foldl
      (fun sc p =>
        if p.2 = some ha then
          setKey sc p.1 ((getKey sc p.1).getD 0 + 100)
        else sc)
      gs.individualScores
    { room with gameState :=
        { gs with
          individualScores := newScores,
          resultRevealed := setKey gs.resultRevealed team true,
          resultRevealedAt := setKey gs.resultRevealedAt team (some now) } }

/-- The store writes `revealResult` performs, in order: the awaited score
transactions (`await Promise.all(scorePromises)`) strictly before the
reveal-flag update. -/
def revealTrace (room : Room) (team : String) (now : Int) : List StoreOp :=
  let gs := room.gameState
  match heroAnswerVal gs team with
  | none => []
  | some ha =>
    (((getKey gs.memberAnswers team).getD []).filterMap
      (fun p => if p.2 = some ha then some (StoreOp.incrScore p.1 100)
                else none))
    ++ [StoreOp.setRevealed team now]

/-- The least-served replacement candidates of `checkAndReplaceHero`
(lines 226-236): minimum service count over the whole current roster, no
3-cap filter. -/
def replacementCandidates (room : Room) (teamName : String) : List User :=
  let teamMembers := teamPool room.participants teamName
  let heroHistory := (getKey room.gameState.heroHistory teamName).getD []
  let minCount := jsMin (teamMembers.map (fun m => heroCount heroHistory m.id))
  teamMembers.filter (fun m => heroCount heroHistory m.id = minCount)

/-- The absent-hero recovery for one team (lines 215-275,
`checkAndReplaceHero`): when `currentHeroId[teamName]` no longer names a
present member of a non-empty roster, install a least-served replacement,
stage a fresh question set, reset the index, clear the hero answer, reset
every current member's answer entry (the whole team node is replaced) and
clear the reveal flags.  `roundCount` and `heroHistory` are not written. -/
def checkAndReplaceHero (room : Room) (teamName : String)
    (questionsLen : Nat) (qdraws : List Nat) (r : Nat) : Room :=
  let gs := room.gameState
  match getKey gs.currentHeroId teamName with
  | none => room
  | some heroId =>
    let teamMembers := teamPool room.participants teamName
    if teamMembers.length > 0 ∧ ¬ teamMembers.any (fun m => m.id = heroId)
    then
      match (replacementCandidates room teamName)[r]? with
      | none => room
      | some nextHero =>
        let indices := generateQuestionHistory questionsLen qdraws
        let resetAnswers : List (String × Option Ans) :=
          teamMembers.map (fun m => (m.id, none))
        { room with gameState :=
            { gs with
              currentHeroId := setKey gs.currentHeroId teamName nextHero.id,
              heroAnswer := setKey gs.heroAnswer teamName none,
              questionHistory := setKey gs.questionHistory teamName indices,
              currentQuestionIndex :=
                setKey gs.currentQuestionIndex teamName (JsNum.int 0),
              memberAnswers := setKey gs.memberAnswers teamName resetAnswers,
              resultRevealed := setKey gs.resultRevealed teamName false,
              resultRevealedAt :=
                setKey gs.resultRevealedAt teamName none } }
    else room

/-! ## Session continuity (`restoreSession`, lines 900-954) -/

/-- The persisted blob `{ roomId, user, timestamp }` in localStorage. -/
structure SessionBlob where
  roomId : String
  user : User
  timestamp : Int
deriving DecidableEq, Repr

/-- Result of `restoreSession`: the returned boolean, the localStorage
blob after the call, and the rooms store after the call. -/
structure RestoreResult where
  ok : Bool
  blob : Option SessionBlob
  rooms : List (String × Room)
deriving DecidableEq, Repr

/-- Session restore `restoreSession()` (lines 900-954): reject-and-clear for sessions over
24 hours old or rooms that no longer exist; admin sessions restore
directly; a participant whose row still exists restores as-is; otherwise
the row is re-created and a zero score entry written only when no score
entry exists for that id. -/
def restoreSession (blob : Option SessionBlob) (now : Int)
    (rooms : List (String × Room)) : RestoreResult :=
  match blob with
  | none => ⟨false, none, rooms⟩
  | some s =>
    if now - s.timestamp > 24 * 60 * 60 * 1000 then ⟨false, none, rooms⟩
    else
      match getKey rooms s.roomId with
      | none => ⟨false, none, rooms⟩
      | some room =>
        if s.user.role = UserRole.ADMIN then ⟨true, blob, rooms⟩
        else if room.participants.any (fun p => p.id = s.user.id) then
          ⟨true, blob, rooms⟩
        else
          let room1 :=
            { room with
              participants := setParticipant room.participants s.user }
          let room2 :=
            if (getKey room1.gameState.individualScores s.user.id).isSome
            then room1
            else
              let sc2 :=
                setKey room1.gameState.individualScores s.user.id 0
              { room1 with gameState :=
                  { room1.gameState with individualScores := sc2 } }
          ⟨true, blob, setKey rooms s.roomId room2⟩

/-! ## Score ledger concurrency (C2)

`revealResult` in the first variant increments a score through
`runTransaction` (lines 664-674), the store's atomic read-modify-write;
the second variant (lines 1536-1568) reads the score with `get` and then
writes `currentScore + 100` unconditionally.  Both are modelled as `n`
concurrent client threads incrementing one score cell, executed under an
arbitrary interleaving (a schedule of thread indices). -/

/-- One atomic `runTransaction` step for thread `t`: if the thread has not
run yet, it atomically adds `delta` and finishes; re-scheduling a finished
thread is a no-op. -/
def txStep (delta : Int) (st : Int × List Bool) (t : Nat) :
    Int × List Bool :=
  match st.2[t]? with
  | some false => (st.1 + delta, st.2.set t true)
  | _ => st

/-- Run a schedule of atomic-increment threads. -/
def txRun (delta : Int) : List Nat → Int × List Bool → Int × List Bool
  | [], st => st
  | t :: rest, st => txRun delta rest (txStep delta st t)

/-- A plain read-then-write thread: `pc = 0` before its read, `pc = 1`
between read and write (`saved` holds the value it read), `pc = 2` done. -/
structure RwThread where
  pc : Nat
  saved : Int
deriving DecidableEq, Repr

/-- One step of a read-then-write thread (the variant-2 score path): the
read takes a snapshot of the cell; the write stores `saved + delta`
unconditionally. -/
def rwStep (delta : Int) (score : Int) (th : RwThread) : Int × RwThread :=
  if th.pc = 0 then (score, { pc := 1, saved := score })
  else if th.pc = 1 then (th.saved + delta, { th with pc := 2 })
  else (score, th)

/-- Run a schedule of read-then-write threads. -/
def rwRun (delta : Int) :
    List Nat → Int × List RwThread → Int × List RwThread
  | [], st => st
  | t :: rest, st =>
    match st.2[t]? with
    | none => rwRun delta rest st
    | some th =>
      let s2 := rwStep delta st.1 th
      rwRun delta rest (s2.1, st.2.set t s2.2)

/-! ## C3: `revealResult` (transaction variant) -/

theorem revealFold_notmem (ha : Ans) (answers : List (String × Option Ans))
    (uid : String) (h : ∀ p ∈ answers, p.1 ≠ uid) :
    ∀ sc : List (String × Int),
    getKey (answers.foldl
      (fun sc p =>
        if p.2 = some ha then
          setKey sc p.1 ((getKey sc p.1).getD 0 + 100)
        else sc) sc) uid = getKey sc uid := by
  induction answers with
  | nil => intro sc; rfl
  | cons p t ih =>
    intro sc
    rw [List.foldl_cons,
      ih (fun q hq => h q (List.mem_cons_of_mem p hq))]
    by_cases hp2 : p.2 = some ha
    · rw [if_pos hp2, getKey_setKey_ne _ _ _ _
        (Ne.symm (h p (List.mem_cons_self p t)))]
    · rw [if_neg hp2]

theorem revealFold_lookup (ha : Ans) (answers : List (String × Option Ans))
    (hnd : (answers.map Prod.fst).Nodup) (uid : String) :
    ∀ sc : List (String × Int),
    getKey (answers.foldl
      (fun sc p =>
        if p.2 = some ha then
          setKey sc p.1 ((getKey sc p.1).getD 0 + 100)
        else sc) sc) uid =
    (if getKey answers uid = some (some ha)
     then some ((getKey sc uid).getD 0 + 100)
     else getKey sc uid) := by
  induction answers with
  | nil => intro sc; simp [getKey]
  | cons p t ih =>
    rw [List.map_cons] at hnd
    have hnd2 := List.nodup_cons.1 hnd
    intro sc
    rw [List.foldl_cons]
    by_cases hpu : p.1 = uid
    · have hnomem : ∀ q ∈ t, q.1 ≠ uid := by
        intro q hq he
        apply hnd2.1
        rw [hpu, ← he]
        exact List.mem_map_of_mem Prod.fst hq
      rw [revealFold_notmem ha t uid hnomem]
      rw [getKey, if_pos hpu]
      by_cases hp2 : p.2 = some ha
      · rw [if_pos hp2, if_pos (by rw [hp2]), ← hpu, getKey_setKey_self]
      · rw [if_neg hp2, if_neg (fun he => hp2 (Option.some.inj he))]
    · rw [ih hnd2.2, getKey, if_neg hpu]
      by_cases hp2 : p.2 = some ha
      · rw [if_pos hp2, getKey_setKey_ne _ _ _ _ (Ne.symm hpu)]
      · rw [if_neg hp2]

/-- C3: `revealResult(team)` is a no-op when the committed hero answer is
null/absent; otherwise every user whose stored answer in
`memberAnswers[team]` equals the hero answer gains exactly 100 points
(a missing score entry counts as 0), every other user's score entry —
including the hero's, whose reset entry is null — is unchanged, the reveal
flags are set to `true` / the current time, and in the operation's store
trace every score increment occurs strictly before the reveal write. -/
theorem revealResult_spec (room : Room) (team : String) (now : Int) :
    (heroAnswerVal room.gameState team = none →
      revealResult room team now = room) ∧
    (∀ ha : Ans, heroAnswerVal room.gameState team = some ha →
      ((((getKey room.gameState.memberAnswers team).getD []).map
          Prod.fst).Nodup →
        (∀ uid : String,
          getKey ((getKey room.gameState.memberAnswers team).getD []) uid
              = some (some ha) →
          getKey (revealResult room team now).gameState.individualScores uid
            = some ((getKey room.gameState.individualScores uid).getD 0
                + 100)) ∧
        (∀ uid : String,
          ¬ getKey ((getKey room.gameState.memberAnswers team).getD []) uid
              = some (some ha) →
          getKey (revealResult room team now).gameState.individualScores uid
            = getKey room.gameState.individualScores uid)) ∧
      getKey (revealResult room team now).gameState.resultRevealed team
        = some true ∧
      getKey (revealResult room team now).gameState.resultRevealedAt team
        = some (some now) ∧
      (revealTrace room team now).getLast?
        = some (StoreOp.setRevealed team now) ∧
      (∀ op ∈ (revealTrace room team now).dropLast,
        ∃ uid : String, op = StoreOp.incrScore uid 100)) := by
  constructor
  · intro h
    simp [revealResult, h]
  · intro ha hha
    refine ⟨fun hnd => ⟨?_, ?_⟩, ?_, ?_, ?_, ?_⟩
    · intro uid hm
      simp only [revealResult, hha]
      rw [revealFold_lookup ha _ hnd uid, if_pos hm]
    · intro uid hm
      simp only [revealResult, hha]
      rw [revealFold_lookup ha _ hnd uid, if_neg hm]
    · simp [revealResult, hha, getKey_setKey_self]
    · simp [revealResult, hha, getKey_setKey_self]
    · simp only [revealTrace, hha]
      exact List.getLast?_concat _
    · intro op hop
      simp only [revealTrace, hha] at hop
      rw [List.dropLast_concat] at hop
      obtain ⟨p, hp, hf⟩ := List.mem_filterMap.1 hop
      by_cases h2 : p.2 = some ha
      · rw [if_pos h2] at hf
        exact ⟨p.1, (Option.some.inj hf).symm⟩
      · rw [if_neg h2] at hf
        cases hf

/-- The happy-path room of the spec scenario: team "팀 1" with hero A
(answered O, own answer entry reset to null) and member B (guessed O). -/
def c3Room : Room :=
  { participants :=
      [⟨"uA", "A", "팀 1", UserRole.TRAINEE, 0⟩,
       ⟨"uB", "B", "팀 1", UserRole.TRAINEE, 0⟩],
    gameState :=
      { isStarted := true, isFinished := false, startTime := some 0,
        currentHeroId := [("팀 1", "uA")],
        heroAnswer := [("팀 1", some Ans.O)],
        currentQuestionIndex := [("팀 1", JsNum.int 0)],
        questionHistory := [("팀 1", [0, 1, 2, 3])],
        heroHistory := [("팀 1", ["uA"])],
        individualScores := [("uA", 0), ("uB", 0)],
        memberAnswers := [("팀 1", [("uA", none), ("uB", some Ans.O)])],
        roundCount := [], resultRevealed := [("팀 1", false)],
        resultRevealedAt := [("팀 1", none)] } }

/-- Witness for C3 on the happy-path scenario: B gains 100, the hero A is
unchanged, the reveal flag is set. -/
theorem revealResult_spec_witness :
    getKey (revealResult c3Room "팀 1" 999).gameState.individualScores "uB"
      = some ((getKey c3Room.gameState.individualScores "uB").getD 0
          + 100) ∧
    getKey (revealResult c3Room "팀 1" 999).gameState.individualScores "uA"
      = getKey c3Room.gameState.individualScores "uA" ∧
    getKey (revealResult c3Room "팀 1" 999).gameState.resultRevealed "팀 1"
      = some true := by
  have h := (revealResult_spec c3Room "팀 1" 999).2 Ans.O (by decide)
  exact ⟨(h.1 (by decide)).1 "uB" (by decide),
         (h.1 (by decide)).2 "uA" (by decide),
         h.2.1⟩

/-! ## C5: `joinRoom` duplicate handling -/

theorem mem_setParticipant (l : List User) (u p : User)
    (hp : p ∈ setParticipant l u) : p ∈ l ∨ p = u := by
  induction l with
  | nil => exact Or.inr (List.mem_singleton.1 hp)
  | cons q t ih =>
    rw [setParticipant] at hp
    by_cases hq : q.id = u.id
    · rw [if_pos hq] at hp
      rcases List.mem_cons.1 hp with rfl | h
      · exact Or.inr rfl
      · exact Or.inl (List.mem_cons_of_mem q h)
    · rw [if_neg hq] at hp
      rcases List.mem_cons.1 hp with rfl | h
      · exact Or.inl (List.mem_cons_self p t)
      · rcases ih h with h2 | h2
        · exact Or.inl (List.mem_cons_of_mem q h2)
        · exact Or.inr h2

theorem self_mem_setParticipant (l : List User) (u : User) :
    u ∈ setParticipant l u := by
  induction l with
  | nil => exact List.mem_singleton.2 rfl
  | cons q t ih =>
    rw [setParticipant]
    by_cases hq : q.id = u.id
    · rw [if_pos hq]; exact List.mem_cons_self u t
    · rw [if_neg hq]; exact List.mem_cons_of_mem q ih

theorem mem_setParticipant_of_mem (l : List User) (u p : User) (hp : p ∈ l)
    (hne : ¬ p.id = u.id) : p ∈ setParticipant l u := by
  induction l with
  | nil => cases hp
  | cons q t ih =>
    rw [setParticipant]
    by_cases hq : q.id = u.id
    · rw [if_pos hq]
      rcases List.mem_cons.1 hp with rfl | h
      · exact absurd hq hne
      · exact List.mem_cons_of_mem u h
    · rw [if_neg hq]
      rcases List.mem_cons.1 hp with rfl | h
      · exact List.mem_cons_self _ _
      · exact List.mem_cons_of_mem q (ih h)

/-- C5: a join with an existing `(team, name)` duplicate is a reconnect —
the old participant row is gone, the duplicate's pending
`memberAnswers[team]` entry is gone, and the new participant (fresh id
`newId`) starts with the old participant's `individualScores` value, which
is also written as the new id's score entry; without a duplicate the new
participant starts at score 0. -/
theorem joinRoom_spec (room : Room) (nm tm newId : String)
    (role : UserRole) :
    (∀ dup : User,
      room.participants.find? (fun p => p.team = tm ∧ p.name = nm)
        = some dup →
      ¬ newId = dup.id →
      (∀ p ∈ (joinRoom room nm tm newId role).participants,
        ¬ p.id = dup.id) ∧
      getKey ((getKey (joinRoom room nm tm newId
          role).gameState.memberAnswers tm).getD []) dup.id = none ∧
      getKey (joinRoom room nm tm newId role).gameState.individualScores
          newId
        = some ((getKey room.gameState.individualScores dup.id).getD 0) ∧
      (∃ p ∈ (joinRoom room nm tm newId role).participants,
        p.id = newId ∧
        p.score = (getKey room.gameState.individualScores dup.id).getD 0)) ∧
    (room.participants.find? (fun p => p.team = tm ∧ p.name = nm) = none →
      getKey (joinRoom room nm tm newId role).gameState.individualScores
          newId = some 0 ∧
      (∃ p ∈ (joinRoom room nm tm newId role).participants,
        p.id = newId ∧ p.score = 0)) := by
  constructor
  · intro dup hdup hne
    refine ⟨?_, ?_, ?_, ?_⟩
    · intro p hp
      simp only [joinRoom, hdup] at hp
      rcases mem_setParticipant _ _ _ hp with hmem | rfl
      · simpa using (List.mem_filter.1 hmem).2
      · simpa using hne
    · by_cases hst : room.gameState.isStarted = true ∧
          ¬ room.gameState.isFinished = true
      · cases hma : getKey room.gameState.memberAnswers tm with
        | none =>
          simp only [joinRoom, hdup, hma]
          rw [if_pos hst]
          simp [setTeamAnswer, getKey_setKey, Ne.symm hne, getKey, hma]
        | some ta =>
          simp only [joinRoom, hdup, hma]
          rw [if_pos hst]
          simp [setTeamAnswer, getKey_setKey, getKey_delKey, Ne.symm hne]
      · cases hma : getKey room.gameState.memberAnswers tm with
        | none =>
          simp only [joinRoom, hdup, hma]
          rw [if_neg hst]
          simp [getKey, hma]
        | some ta =>
          simp only [joinRoom, hdup, hma]
          rw [if_neg hst]
          simp [getKey_setKey, getKey_delKey]
    · by_cases hst : room.gameState.isStarted = true ∧
          ¬ room.gameState.isFinished = true
      · cases hma : getKey room.gameState.memberAnswers tm with
        | none =>
          simp only [joinRoom, hdup, hma]
          rw [if_pos hst]
          simp [getKey_setKey_self]
        | some ta =>
          simp only [joinRoom, hdup, hma]
          rw [if_pos hst]
          simp [getKey_setKey_self]
      · cases hma : getKey room.gameState.memberAnswers tm with
        | none =>
          simp only [joinRoom, hdup, hma]
          rw [if_neg hst]
          simp [getKey_setKey_self]
        | some ta =>
          simp only [joinRoom, hdup, hma]
          rw [if_neg hst]
          simp [getKey_setKey_self]
    · refine ⟨⟨newId, nm, tm, role,
        (getKey room.gameState.individualScores dup.id).getD 0⟩,
        ?_, rfl, rfl⟩
      simp only [joinRoom, hdup]
      exact self_mem_setParticipant _ _
  · intro hdup
    constructor
    · by_cases hst : room.gameState.isStarted = true ∧
          ¬ room.gameState.isFinished = true
      · cases hma : getKey room.gameState.memberAnswers tm with
        | none =>
          simp only [joinRoom, hdup, hma]
          rw [if_pos hst]
          simp [getKey_setKey_self]
        | some ta =>
          simp only [joinRoom, hdup, hma]
          rw [if_pos hst]
          simp [getKey_setKey_self]
      · cases hma : getKey room.gameState.memberAnswers tm with
        | none =>
          simp only [joinRoom, hdup, hma]
          rw [if_neg hst]
          simp [getKey_setKey_self]
        | some ta =>
          simp only [joinRoom, hdup, hma]
          rw [if_neg hst]
          simp [getKey_setKey_self]
    · refine ⟨⟨newId, nm, tm, role, 0⟩, ?_, rfl, rfl⟩
      simp only [joinRoom, hdup]
      exact self_mem_setParticipant _ _

/-- The duplicate-join scenario room: "Kim" on team "팀 1" with id `u1`
and score 150, mid-game. -/
def c5Room : Room :=
  { participants := [⟨"u1", "Kim", "팀 1", UserRole.TRAINEE, 150⟩],
    gameState :=
      { isStarted := true, isFinished := false, startTime := some 0,
        currentHeroId := [("팀 1", "u1")],
        heroAnswer := [],
        currentQuestionIndex := [("팀 1", JsNum.int 0)],
        questionHistory := [("팀 1", [0, 1])],
        heroHistory := [("팀 1", ["u1"])],
        individualScores := [("u1", 150)],
        memberAnswers := [("팀 1", [("u1", some Ans.O)])],
        roundCount := [], resultRevealed := [],
        resultRevealedAt := [] } }

/-- Witness for C5: Kim rejoins the same team and name under fresh id
`u2`; the old row `u1` is gone and the new row inherits score 150. -/
theorem joinRoom_spec_witness :
    (∀ p ∈ (joinRoom c5Room "Kim" "팀 1" "u2"
        UserRole.TRAINEE).participants, ¬ p.id = "u1") ∧
    getKey (joinRoom c5Room "Kim" "팀 1" "u2"
        UserRole.TRAINEE).gameState.individualScores "u2"
      = some ((getKey c5Room.gameState.individualScores "u1").getD 0) := by
  have h := (joinRoom_spec c5Room "Kim" "팀 1" "u2" UserRole.TRAINEE).1
    ⟨"u1", "Kim", "팀 1", UserRole.TRAINEE, 150⟩ (by decide) (by decide)
  exact ⟨h.1, h.2.2.1⟩

/-! ## C9: the `memberAnswers`-keys-are-members invariant -/

/-- The `memberAnswers[team]` node (empty when absent). -/
def teamAnswers (room : Room) (team : String) :
    List (String × Option Ans) :=
  (getKey room.gameState.memberAnswers team).getD []

/-- Spec §3 invariant: every key present in `memberAnswers[team]` belongs
to a current member of that team. -/
def answersInvariant (room : Room) (team : String) : Prop :=
  ∀ uid : String, (getKey (teamAnswers room team) uid).isSome →
    ∃ p ∈ room.participants, p.id = uid ∧ p.team = team

/-- Room used in the C9 counterexample and witness: two members of team
"A", each with a `memberAnswers` entry. -/
def c9Room : Room :=
  { participants :=
      [⟨"u1", "Kim", "A", UserRole.TRAINEE, 0⟩,
       ⟨"u2", "Lee", "A", UserRole.TRAINEE, 0⟩],
    gameState :=
      { isStarted := true, isFinished := false, startTime := some 0,
        currentHeroId := [("A", "u1")],
        heroAnswer := [("A", some Ans.O)],
        currentQuestionIndex := [("A", JsNum.int 0)],
        questionHistory := [("A", [0, 1])],
        heroHistory := [("A", ["u1"])],
        individualScores := [("u1", 0), ("u2", 0)],
        memberAnswers := [("A", [("u1", none), ("u2", some Ans.O)])],
        roundCount := [], resultRevealed := [],
        resultRevealedAt := [] } }

theorem c9Room_invariant : answersInvariant c9Room "A" := by
  intro uid hs
  rw [(rfl : teamAnswers c9Room "A"
    = [("u1", (none : Option Ans)), ("u2", some Ans.O)])] at hs
  obtain ⟨q, hq, hkey⟩ := exists_of_getKey_isSome _ _ hs
  rcases List.mem_cons.1 hq with rfl | hq2
  · exact ⟨⟨"u1", "Kim", "A", UserRole.TRAINEE, 0⟩,
      List.mem_cons_self _ _, hkey, rfl⟩
  · rcases List.mem_cons.1 hq2 with rfl | hq3
    · exact ⟨⟨"u2", "Lee", "A", UserRole.TRAINEE, 0⟩,
        List.mem_cons_of_mem _ (List.mem_cons_self _ _), hkey, rfl⟩
    · cases hq3

/-- C9 counterexample: the invariant holds in `c9Room`, but after member
`u2` leaves, their `memberAnswers["A"]` key is still present while no
participant has id `u2` — `leaveRoom` removes only the participant row. -/
theorem leaveRoom_breaks_answersInvariant :
    answersInvariant c9Room "A" ∧
    ¬ answersInvariant (leaveRoom c9Room "u2") "A" := by
  refine ⟨c9Room_invariant, fun h => ?_⟩
  obtain ⟨p, hp, hid, hteam⟩ := h "u2" (by decide)
  have hp1 : p = ⟨"u1", "Kim", "A", UserRole.TRAINEE, 0⟩ := by
    simpa [leaveRoom, c9Room] using hp
  rw [hp1] at hid
  exact absurd hid (by decide)

theorem eq_of_mem_of_idNodup (l : List User)
    (hnd : (l.map User.id).Nodup) :
    ∀ p ∈ l, ∀ q ∈ l, p.id = q.id → p = q := by
  induction l with
  | nil => intro p hp; cases hp
  | cons r t ih =>
    rw [List.map_cons] at hnd
    have hnd2 := List.nodup_cons.1 hnd
    intro p hp q hq he
    rcases List.mem_cons.1 hp with rfl | hp2
    · rcases List.mem_cons.1 hq with rfl | hq2
      · rfl
      · exact absurd (he ▸ List.mem_map_of_mem User.id hq2) hnd2.1
    · rcases List.mem_cons.1 hq with rfl | hq2
      · exact absurd (he ▸ List.mem_map_of_mem User.id hp2) hnd2.1
      · exact ih hnd2.2 p hp2 q hq2 he

theorem joinRoom_keeps_participant (room : Room) (nm tm newId : String)
    (role : UserRole) (p : User) (hp : p ∈ room.participants)
    (hne : ¬ p.id = newId)
    (hdupne : ∀ dup : User,
      room.participants.find? (fun q => q.team = tm ∧ q.name = nm)
        = some dup → ¬ p.id = dup.id) :
    p ∈ (joinRoom room nm tm newId role).participants := by
  cases hdup : room.participants.find?
      (fun q => q.team = tm ∧ q.name = nm) with
  | none =>
    simp only [joinRoom, hdup]
    exact mem_setParticipant_of_mem _ _ _ hp hne
  | some dup =>
    simp only [joinRoom, hdup]
    exact mem_setParticipant_of_mem _ _ _
      (List.mem_filter.2 ⟨hp, by simpa using hdupne dup hdup⟩) hne

theorem joinRoom_new_mem (room : Room) (nm tm newId : String)
    (role : UserRole) :
    ∃ p ∈ (joinRoom room nm tm newId role).participants,
      p.id = newId ∧ p.team = tm := by
  cases hdup : room.participants.find?
      (fun q => q.team = tm ∧ q.name = nm) with
  | none =>
    refine ⟨⟨newId, nm, tm, role, 0⟩, ?_, rfl, rfl⟩
    simp only [joinRoom, hdup]
    exact self_mem_setParticipant _ _
  | some dup =>
    refine ⟨⟨newId, nm, tm, role,
      (getKey room.gameState.individualScores dup.id).getD 0⟩, ?_, rfl, rfl⟩
    simp only [joinRoom, hdup]
    exact self_mem_setParticipant _ _

theorem joinRoom_answers_isSome (room : Room) (nm tm newId : String)
    (role : UserRole) (team uid : String)
    (hs : (getKey (teamAnswers (joinRoom room nm tm newId role) team)
      uid).isSome) :
    (team = tm ∧ uid = newId) ∨
    ((getKey (teamAnswers room team) uid).isSome ∧
      (team = tm → ∀ dup : User,
        room.participants.find? (fun q => q.team = tm ∧ q.name = nm)
          = some dup → ¬ uid = dup.id)) := by
  by_cases hteam : team = tm
  · subst hteam
    by_cases huid : uid = newId
    · exact Or.inl ⟨rfl, huid⟩
    · refine Or.inr ⟨?_, ?_⟩
      · cases hdup : room.participants.find?
            (fun q => q.team = team ∧ q.name = nm) with
        | none =>
          by_cases hst : room.gameState.isStarted = true ∧
              ¬ room.gameState.isFinished = true
          · cases hma : getKey room.gameState.memberAnswers team with
            | none =>
              rw [teamAnswers] at hs
              simp only [joinRoom, hdup, hma] at hs
              rw [if_pos hst] at hs
              simp [setTeamAnswer, getKey_setKey, huid, hma, getKey,
                teamAnswers] at hs
            | some ta =>
              rw [teamAnswers] at hs
              simp only [joinRoom, hdup, hma] at hs
              rw [if_pos hst] at hs
              simp only [setTeamAnswer, getKey_setKey_self,
                Option.getD_some, hma] at hs
              rw [getKey_setKey, if_neg huid] at hs
              simpa [teamAnswers, hma] using hs
          · cases hma : getKey room.gameState.memberAnswers team with
            | none =>
              rw [teamAnswers] at hs
              simp only [joinRoom, hdup, hma] at hs
              rw [if_neg hst] at hs
              simpa [teamAnswers, hma] using hs
            | some ta =>
              rw [teamAnswers] at hs
              simp only [joinRoom, hdup, hma] at hs
              rw [if_neg hst] at hs
              simpa [teamAnswers, hma] using hs
        | some dup =>
          by_cases hst : room.gameState.isStarted = true ∧
              ¬ room.gameState.isFinished = true
          · cases hma : getKey room.gameState.memberAnswers team with
            | none =>
              rw [teamAnswers] at hs
              simp only [joinRoom, hdup, hma] at hs
              rw [if_pos hst] at hs
              simp [setTeamAnswer, getKey_setKey, huid, hma, getKey,
                teamAnswers] at hs
            | some ta =>
              rw [teamAnswers] at hs
              simp only [joinRoom, hdup, hma] at hs
              rw [if_pos hst] at hs
              simp only [setTeamAnswer, getKey_setKey_self,
                Option.getD_some] at hs
              rw [getKey_setKey, if_neg huid, getKey_delKey] at hs
              by_cases hd : uid = dup.id
              · rw [if_pos hd] at hs; cases hs
              · rw [if_neg hd] at hs
                simpa [teamAnswers, hma] using hs
          · cases hma : getKey room.gameState.memberAnswers team with
            | none =>
              rw [teamAnswers] at hs
              simp only [joinRoom, hdup, hma] at hs
              rw [if_neg hst] at hs
              simpa [teamAnswers, hma] using hs
            | some ta =>
              rw [teamAnswers] at hs
              simp only [joinRoom, hdup, hma] at hs
              rw [if_neg hst] at hs
              rw [getKey_setKey_self, Option.getD_some, getKey_delKey]
                at hs
              by_cases hd : uid = dup.id
              · rw [if_pos hd] at hs; cases hs
              · rw [if_neg hd] at hs
                simpa [teamAnswers, hma] using hs
      · intro _ dup hdup hd
        subst hd
        cases hma : getKey room.gameState.memberAnswers team with
        | none =>
          by_cases hst : room.gameState.isStarted = true ∧
              ¬ room.gameState.isFinished = true
          · rw [teamAnswers] at hs
            simp only [joinRoom, hdup, hma] at hs
            rw [if_pos hst] at hs
            simp [setTeamAnswer, getKey_setKey, huid, hma, getKey] at hs
          · rw [teamAnswers] at hs
            simp only [joinRoom, hdup, hma] at hs
            rw [if_neg hst] at hs
            simp [getKey, hma] at hs
        | some ta =>
          by_cases hst : room.gameState.isStarted = true ∧
              ¬ room.gameState.isFinished = true
          · rw [teamAnswers] at hs
            simp only [joinRoom, hdup, hma] at hs
            rw [if_pos hst] at hs
            simp only [setTeamAnswer, getKey_setKey_self,
              Option.getD_some] at hs
            rw [getKey_setKey, if_neg huid, getKey_delKey,
              if_pos rfl] at hs
            cases hs
          · rw [teamAnswers] at hs
            simp only [joinRoom, hdup, hma] at hs
            rw [if_neg hst] at hs
            rw [getKey_setKey_self, Option.getD_some, getKey_delKey,
              if_pos rfl] at hs
            cases hs
  · refine Or.inr ⟨?_, fun h => absurd h hteam⟩
    cases hdup : room.participants.find?
        (fun q => q.team = tm ∧ q.name = nm) with
    | none =>
      by_cases hst : room.gameState.isStarted = true ∧
          ¬ room.gameState.isFinished = true
      · rw [teamAnswers] at hs
        simp only [joinRoom, hdup] at hs
        rw [if_pos hst] at hs
        rw [setTeamAnswer, getKey_setKey_ne _ _ _ _ hteam] at hs
        exact hs
      · rw [teamAnswers] at hs
        simp only [joinRoom, hdup] at hs
        rw [if_neg hst] at hs
        exact hs
    | some dup =>
      cases hma : getKey room.gameState.memberAnswers tm with
      | none =>
        by_cases hst : room.gameState.isStarted = true ∧
            ¬ room.gameState.isFinished = true
        · rw [teamAnswers] at hs
          simp only [joinRoom, hdup, hma] at hs
          rw [if_pos hst] at hs
          rw [setTeamAnswer, getKey_setKey_ne _ _ _ _ hteam] at hs
          exact hs
        · rw [teamAnswers] at hs
          simp only [joinRoom, hdup, hma] at hs
          rw [if_neg hst] at hs
          exact hs
      | some ta =>
        by_cases hst : room.gameState.isStarted = true ∧
            ¬ room.gameState.isFinished = true
        · rw [teamAnswers] at hs
          simp only [joinRoom, hdup, hma] at hs
          rw [if_pos hst] at hs
          rw [setTeamAnswer, getKey_setKey_ne _ _ _ _ hteam,
            getKey_setKey_ne _ _ _ _ hteam] at hs
          exact hs
        · rw [teamAnswers] at hs
          simp only [joinRoom, hdup, hma] at hs
          rw [if_neg hst] at hs
          rw [getKey_setKey_ne _ _ _ _ hteam] at hs
          exact hs

theorem foldSetTeam_ne (team2 : String) (ms : List User) (t : String)
    (h : ¬ t = team2) :
    ∀ ma, getKey (ms.foldl
      (fun ma m => setTeamAnswer ma team2 m.id none) ma) t = getKey ma t := by
  induction ms with
  | nil => intro ma; rfl
  | cons m ms ih =>
    intro ma
    rw [List.foldl_cons, ih, setTeamAnswer, getKey_setKey_ne _ _ _ _ h]

theorem foldSetTeam_isSome (team2 : String) (ms : List User)
    (uid : String) :
    ∀ ma, (getKey ((getKey (ms.foldl
        (fun ma m => setTeamAnswer ma team2 m.id none) ma) team2).getD [])
        uid).isSome →
      (getKey ((getKey ma team2).getD []) uid).isSome ∨
        uid ∈ ms.map User.id := by
  induction ms with
  | nil => intro ma h; exact Or.inl h
  | cons m ms ih =>
    intro ma h
    rw [List.foldl_cons] at h
    rcases ih _ h with h2 | h2
    · rw [setTeamAnswer, getKey_setKey_self, Option.getD_some] at h2
      rw [getKey_setKey] at h2
      by_cases huid : uid = m.id
      · exact Or.inr (List.mem_cons.2 (Or.inl huid))
      · rw [if_neg huid] at h2
        exact Or.inl h2
    · exact Or.inr (List.mem_cons_of_mem _ h2)

/-- C9 (amended): `joinRoom` and `setHeroAnswer` preserve the invariant
that every `memberAnswers[team]` key belongs to a current member of that
team (`joinRoom` seeds an entry only for the joining member and removes
the duplicate's entry; `setHeroAnswer` only resets entries of a fresh read
of the current roster), but `leaveRoom` does not: it removes only the
participant row and leaves the departing user's `memberAnswers` entry in
place, so the invariant can be broken by a departure until the next
answer reset. -/
theorem memberAnswers_invariant_status :
    (∀ (room : Room) (nm tm newId : String) (role : UserRole)
        (team : String),
      (room.participants.map User.id).Nodup →
      (∀ p ∈ room.participants, ¬ p.id = newId) →
      answersInvariant room team →
      answersInvariant (joinRoom room nm tm newId role) team) ∧
    (∀ (room : Room) (team2 : String) (answer : Ans) (team : String),
      answersInvariant room team →
      answersInvariant (setHeroAnswer room team2 answer) team) ∧
    (∀ (room : Room) (uid : String),
      (leaveRoom room uid).gameState = room.gameState ∧
      ∀ p ∈ (leaveRoom room uid).participants, ¬ p.id = uid) := by
  refine ⟨?_, ?_, ?_⟩
  · intro room nm tm newId role team hids hfresh hinv uid hs
    rcases joinRoom_answers_isSome room nm tm newId role team uid hs with
      ⟨hteq, huid⟩ | ⟨hold, himpl⟩
    · obtain ⟨p, hp, hpid, hpteam⟩ := joinRoom_new_mem room nm tm newId role
      exact ⟨p, hp, hpid.trans huid.symm, hpteam.trans hteq.symm⟩
    · obtain ⟨p, hp, hpid, hpteam⟩ := hinv uid hold
      refine ⟨p, ?_, hpid, hpteam⟩
      refine joinRoom_keeps_participant room nm tm newId role p hp
        (hfresh p hp) ?_
      intro dup hdup hd
      by_cases hteam : team = tm
      · exact himpl hteam dup hdup (hpid ▸ hd)
      · have hdmem := List.mem_of_find?_eq_some hdup
        have hdteam : dup.team = tm := by
          have := List.find?_some hdup
          exact (of_decide_eq_true this).1
        have : p = dup :=
          eq_of_mem_of_idNodup room.participants hids p hp dup hdmem hd
        exact hteam (hpteam ▸ (this ▸ hdteam : p.team = tm))
  · intro room team2 answer team hinv uid hs
    by_cases hteam : team = team2
    · subst hteam
      rw [teamAnswers] at hs
      simp only [setHeroAnswer] at hs
      rcases foldSetTeam_isSome team ((teamPool room.participants team))
          uid _ hs with h2 | h2
      · obtain ⟨p, hp, hpid, hpteam⟩ := hinv uid h2
        exact ⟨p, hp, hpid, hpteam⟩
      · obtain ⟨m, hm, hmid⟩ := List.mem_map.1 h2
        have hm2 := List.mem_filter.1 hm
        exact ⟨m, hm2.1, hmid, by simpa using hm2.2⟩
    · rw [teamAnswers] at hs
      simp only [setHeroAnswer] at hs
      rw [foldSetTeam_ne team2 _ team hteam] at hs
      exact hinv uid hs
  · intro room uid
    refine ⟨rfl, ?_⟩
    intro p hp
    simpa using (List.mem_filter.1 hp).2

/-- Witness for the amended C9: joining `c9Room` with a fresh id preserves
the invariant for team "A". -/
theorem memberAnswers_invariant_status_witness :
    answersInvariant (joinRoom c9Room "Kim" "A" "u9" UserRole.TRAINEE)
      "A" :=
  memberAnswers_invariant_status.1 c9Room "Kim" "A" "u9" UserRole.TRAINEE
    "A" (by decide) (by decide) c9Room_invariant

/-! ## C6: absent-hero recovery -/

theorem getKey_map_reset (ms : List User) (uid : String)
    (h : uid ∈ ms.map User.id) :
    getKey (ms.map (fun m => (m.id, (none : Option Ans)))) uid
      = some none := by
  induction ms with
  | nil => cases h
  | cons m t ih =>
    rw [List.map_cons, getKey]
    by_cases hm : m.id = uid
    · rw [if_pos hm]
    · rw [if_neg hm]
      rcases List.mem_cons.1 h with h2 | h2
      · exact absurd h2.symm hm
      · exact ih h2

/-- C6: when `currentHeroId[team]` names a user who is no longer on the
(non-empty) roster, the recovery installs a present least-served
replacement, stages a fresh sampled question set, resets the question
index to 0, clears the hero answer, resets every current member's answer
entry to null, clears both reveal fields — and leaves `roundCount` (and
`heroHistory`) entirely unchanged: the recovery never counts as a played
round. -/
theorem checkAndReplaceHero_spec (room : Room) (teamName : String)
    (questionsLen : Nat) (qdraws : List Nat) (r : Nat) (heroId : String)
    (nextHero : User)
    (h1 : getKey room.gameState.currentHeroId teamName = some heroId)
    (h2 : ¬ (teamPool room.participants teamName).length = 0)
    (h3 : ∀ p ∈ teamPool room.participants teamName, ¬ p.id = heroId)
    (hsel : (replacementCandidates room teamName)[r]? = some nextHero) :
    getKey (checkAndReplaceHero room teamName questionsLen qdraws
        r).gameState.currentHeroId teamName = some nextHero.id ∧
    nextHero ∈ teamPool room.participants teamName ∧
    getKey (checkAndReplaceHero room teamName questionsLen qdraws
        r).gameState.heroAnswer teamName = some none ∧
    getKey (checkAndReplaceHero room teamName questionsLen qdraws
        r).gameState.questionHistory teamName
      = some (generateQuestionHistory questionsLen qdraws) ∧
    getKey (checkAndReplaceHero room teamName questionsLen qdraws
        r).gameState.currentQuestionIndex teamName
      = some (JsNum.int 0) ∧
    (∀ m ∈ teamPool room.participants teamName,
      getKey ((getKey (checkAndReplaceHero room teamName questionsLen
          qdraws r).gameState.memberAnswers teamName).getD []) m.id
        = some none) ∧
    getKey (checkAndReplaceHero room teamName questionsLen qdraws
        r).gameState.resultRevealed teamName = some false ∧
    getKey (checkAndReplaceHero room teamName questionsLen qdraws
        r).gameState.resultRevealedAt teamName = some none ∧
    (checkAndReplaceHero room teamName questionsLen qdraws
        r).gameState.roundCount = room.gameState.roundCount ∧
    (checkAndReplaceHero room teamName questionsLen qdraws
        r).gameState.heroHistory = room.gameState.heroHistory := by
  have hmem : nextHero ∈ teamPool room.participants teamName := by
    have := List.getElem?_mem hsel
    rw [replacementCandidates] at this
    exact (List.mem_filter.1 this).1
  have hany : (teamPool room.participants teamName).any
      (fun m => m.id = heroId) = false := by
    rw [List.any_eq_false]
    intro x hx
    simpa using h3 x hx
  have hcond : (teamPool room.participants teamName).length > 0 ∧
      ¬ ((teamPool room.participants teamName).any
        (fun m => m.id = heroId) = true) :=
    ⟨Nat.pos_of_ne_zero h2, by rw [hany]; exact Bool.false_ne_true⟩
  refine ⟨?_, hmem, ?_, ?_, ?_, ?_, ?_, ?_, ?_, ?_⟩ <;>
    simp only [checkAndReplaceHero, h1] <;>
    rw [if_pos hcond] <;>
    simp only [hsel] <;>
    simp [getKey_setKey_self]
  intro m hm
  exact getKey_map_reset _ _ (List.mem_map_of_mem User.id hm)

/-- Room for the C6 witness: the recorded hero "gone" has left; u1 has
served once, u2 twice; `roundCount` is 3. -/
def c6Room : Room :=
  { participants :=
      [⟨"u1", "Kim", "A", UserRole.TRAINEE, 0⟩,
       ⟨"u2", "Lee", "A", UserRole.TRAINEE, 0⟩],
    gameState :=
      { isStarted := true, isFinished := false, startTime := some 0,
        currentHeroId := [("A", "gone")],
        heroAnswer := [("A", some Ans.X)],
        currentQuestionIndex := [("A", JsNum.int 2)],
        questionHistory := [("A", [5, 6, 7, 8])],
        heroHistory := [("A", ["gone", "u2", "u1", "u2"])],
        individualScores := [("u1", 100), ("u2", 200)],
        memberAnswers := [("A", [("gone", some Ans.O), ("u1", none),
          ("u2", some Ans.X)])],
        roundCount := [("A", 3)], resultRevealed := [("A", true)],
        resultRevealedAt := [("A", some 42)] } }

/-- Witness for C6 at `c6Room`: the least-served present member u1 is
installed and `roundCount` is untouched. -/
theorem checkAndReplaceHero_spec_witness :
    getKey (checkAndReplaceHero c6Room "A" 10 [0, 1, 2, 3]
        0).gameState.currentHeroId "A" = some "u1" ∧
    (checkAndReplaceHero c6Room "A" 10 [0, 1, 2, 3]
        0).gameState.roundCount = c6Room.gameState.roundCount := by
  have h := checkAndReplaceHero_spec c6Room "A" 10 [0, 1, 2, 3] 0 "gone"
    ⟨"u1", "Kim", "A", UserRole.TRAINEE, 0⟩ (by decide) (by decide)
    (by decide) (by decide)
  exact ⟨h.1, h.2.2.2.2.2.2.2.2.1⟩

/-! ## C8: session restore -/

/-- C8: `restoreSession` rejects and clears a session whose timestamp is
over 24 hours old, or whose room no longer exists; a participant session
whose row is absent re-creates the row, writes a zero score entry only if
none exists (an existing entry is kept as-is), and restores successfully;
a session saved 25 hours ago is always rejected and the blob cleared. -/
theorem restoreSession_spec :
    (∀ (s : SessionBlob) (now : Int) (rooms : List (String × Room)),
      now - s.timestamp > 24 * 60 * 60 * 1000 →
      restoreSession (some s) now rooms = ⟨false, none, rooms⟩) ∧
    (∀ (s : SessionBlob) (now : Int) (rooms : List (String × Room)),
      ¬ now - s.timestamp > 24 * 60 * 60 * 1000 →
      getKey rooms s.roomId = none →
      restoreSession (some s) now rooms = ⟨false, none, rooms⟩) ∧
    (∀ (s : SessionBlob) (now : Int) (rooms : List (String × Room))
        (room : Room),
      ¬ now - s.timestamp > 24 * 60 * 60 * 1000 →
      getKey rooms s.roomId = some room →
      ¬ s.user.role = UserRole.ADMIN →
      (∀ p ∈ room.participants, ¬ p.id = s.user.id) →
      (restoreSession (some s) now rooms).ok = true ∧
      (∃ room2 : Room,
        getKey (restoreSession (some s) now rooms).rooms s.roomId
          = some room2 ∧
        s.user ∈ room2.participants ∧
        (getKey room.gameState.individualScores s.user.id = none →
          getKey room2.gameState.individualScores s.user.id = some 0) ∧
        (∀ v : Int,
          getKey room.gameState.individualScores s.user.id = some v →
          getKey room2.gameState.individualScores s.user.id = some v))) ∧
    (∀ (s : SessionBlob) (now : Int) (rooms : List (String × Room)),
      s.timestamp = now - 25 * 60 * 60 * 1000 →
      restoreSession (some s) now rooms = ⟨false, none, rooms⟩) := by
  refine ⟨?_, ?_, ?_, ?_⟩
  · intro s now rooms h
    rw [restoreSession, if_pos h]
  · intro s now rooms h hroom
    rw [restoreSession, if_neg h, hroom]
  · intro s now rooms room h hroom hrole habs
    have hany : room.participants.any (fun p => p.id = s.user.id)
        = false := by
      rw [List.any_eq_false]
      intro x hx
      simpa using habs x hx
    rw [restoreSession, if_neg h, hroom]
    by_cases hscore :
        (getKey room.gameState.individualScores s.user.id).isSome
    · simp only [if_neg hrole, hany, Bool.false_eq_true, if_false,
        hscore, if_true]
      refine ⟨trivial, ⟨_, getKey_setKey_self _ _ _,
        self_mem_setParticipant _ _, ?_, ?_⟩⟩
      · intro hnone
        rw [hnone] at hscore
        cases hscore
      · intro v hv
        exact hv
    · simp only [if_neg hrole, hany, Bool.false_eq_true, if_false,
        hscore]
      refine ⟨trivial, ⟨_, getKey_setKey_self _ _ _,
        self_mem_setParticipant _ _, ?_, ?_⟩⟩
      · intro _
        exact getKey_setKey_self _ _ _
      · intro v hv
        rw [hv] at hscore
        exact absurd rfl hscore
  · intro s now rooms hts
    rw [restoreSession, if_pos (by rw [hts]; omega)]

def c8User : User := ⟨"u1", "Kim", "A", UserRole.TRAINEE, 0⟩

def c8Rooms : List (String × Room) :=
  [("r1",
    { participants := [],
      gameState :=
        { isStarted := false, isFinished := false, startTime := none,
          currentHeroId := [], heroAnswer := [],
          currentQuestionIndex := [], questionHistory := [],
          heroHistory := [], individualScores := [],
          memberAnswers := [], roundCount := [],
          resultRevealed := [], resultRevealedAt := [] } })]

/-- Witness for C8: a session stamped 25 hours before `now` is rejected
with the blob cleared, and a fresh participant session against an
existing room with no row restores successfully. -/
theorem restoreSession_spec_witness :
    restoreSession (some ⟨"r1", c8User, 0⟩) 90000000 c8Rooms
      = ⟨false, none, c8Rooms⟩ ∧
    (restoreSession (some ⟨"r1", c8User, 1000⟩) 2000 c8Rooms).ok
      = true := by
  constructor
  · exact restoreSession_spec.2.2.2 ⟨"r1", c8User, 0⟩ 90000000 c8Rooms
      (by decide)
  · exact (restoreSession_spec.2.2.1 ⟨"r1", c8User, 1000⟩ 2000 c8Rooms
      ((c8Rooms.get ⟨0, by decide⟩).2) (by decide) (by decide) (by decide)
      (by decide)).1

/-! ## C2: score accumulation under concurrency -/

theorem count_false_set_true (l : List Bool) :
    ∀ t : Nat, l[t]? = some false →
      (l.set t true).count false + 1 = l.count false := by
  induction l with
  | nil => intro t h; cases h
  | cons b tl ih =>
    intro t h
    cases t with
    | zero =>
      have hb : b = false := by simpa using h
      subst hb
      simp [List.count_cons]
    | succ t2 =>
      have h2 : tl[t2]? = some false := by simpa using h
      simp only [List.set_cons_succ, List.count_cons]
      rw [← ih t2 h2]
      omega

theorem txRun_inv (delta : Int) (sched : List Nat) :
    ∀ (score : Int) (threads : List Bool),
      (txRun delta sched (score, threads)).1
          + delta * ((txRun delta sched (score, threads)).2.count false)
        = score + delta * threads.count false := by
  induction sched with
  | nil => intro score threads; rfl
  | cons t rest ih =>
    intro score threads
    rw [txRun]
    cases h : threads[t]? with
    | none => rw [txStep, h]; exact ih score threads
    | some b =>
      cases b with
      | false =>
        rw [txStep, h]
        have hc := count_false_set_true threads t h
        have := ih (score + delta) (threads.set t true)
        rw [this, ← hc]
        push_cast
        ring
      | true => rw [txStep, h]; exact ih score threads

/-- The atomic-increment model (variant-1 `runTransaction` score path)
loses no updates: any interleaving of 50 concurrent `increment(u, 100)`
calls that runs every thread to completion ends at exactly 5000. -/
theorem atomicIncrement_no_lost_updates (sched : List Nat)
    (hdone : (txRun 100 sched (0, List.replicate 50 false)).2.count false
      = 0) :
    (txRun 100 sched (0, List.replicate 50 false)).1 = 5000 := by
  have h := txRun_inv 100 sched 0 (List.replicate 50 false)
  rw [hdone] at h
  simpa using h

/-- C2 (failing evaluation): the plain read-then-write score path of the
second `revealResult` variant drops concurrent increments — under the
schedule that lets all 50 threads read before any writes, 50 concurrent
`increment(u, 100)` calls from 0 end at 100, not 5000. -/
theorem plainWrite_loses_updates :
    (rwRun 100 (List.range 50 ++ List.range 50)
      (0, List.replicate 50 ⟨0, 0⟩)).1 = 100 ∧ (100 : Int) < 5000 := by
  constructor
  · decide
  · decide

end Yja
